import Mathlib

/-
  Verification of the black-box evaluation harness in
  src/optuna_pso/hyperparameter_tuning.py.

  The Python source is shallowly embedded below.  Strings are Lean
  strings / lists of characters; Python ints are ℤ/ℕ; Python floats are
  modelled by `PyFloat`: an exact rational, +infinity, -infinity, or NaN.
  CPython float-from-string conversion is modelled exactly with respect to
  sign, decimal/scientific grammar and overflow to ±infinity (the
  round-to-nearest-even overflow threshold 2^1024 - 2^970); rounding of
  in-range values to the nearest binary64 is not modelled (values stay
  exact rationals) — no property below depends on it.  Python's `\d` and
  digit conversion cover every Unicode decimal digit (category Nd),
  modelled from the Unicode 15.0 table of digit runs; whitespace and
  line boundaries are modelled over Python's Unicode sets.
-/

namespace OptunaPso

/--
First code points of the Unicode 15.0 decimal-digit (category Nd) runs.
Every Nd run is ten consecutive code points whose decimal values are
0 to 9 in order (a Unicode stability guarantee), so the table of run
starts determines both membership and value.
-/
def ndRangeStarts : List ℕ :=
  [0x30, 0x660, 0x6F0, 0x7C0, 0x966, 0x9E6, 0xA66, 0xAE6, 0xB66, 0xBE6,
   0xC66, 0xCE6, 0xD66, 0xDE6, 0xE50, 0xED0, 0xF20, 0x1040, 0x1090, 0x17E0,
   0x1810, 0x1946, 0x19D0, 0x1A80, 0x1A90, 0x1B50, 0x1BB0, 0x1C40, 0x1C50,
   0xA620, 0xA8D0, 0xA900, 0xA9D0, 0xA9F0, 0xAA50, 0xABF0, 0xFF10,
   0x104A0, 0x10D30, 0x11066, 0x110F0, 0x11136, 0x111D0, 0x112F0, 0x11450,
   0x114D0, 0x11650, 0x116C0, 0x11730, 0x118E0, 0x11950, 0x11C50, 0x11D50,
   0x11DA0, 0x11F50, 0x16A60, 0x16AC0, 0x16B50, 0x1D7CE, 0x1D7D8, 0x1D7E2,
   0x1D7EC, 0x1D7F6, 0x1E140, 0x1E2F0, 0x1E4F0, 0x1E950, 0x1FBF0]

/-- A Unicode decimal digit (category Nd): what the source pattern's `\d`
matches (a `str` pattern without `re.ASCII`) and what `float()` converts. -/
def pyIsDigit (c : Char) : Bool :=
  ndRangeStarts.any (fun s => s ≤ c.toNat && c.toNat ≤ s + 9)

/-- The decimal value of a digit: its offset inside its Nd run. -/
def pyDigitVal (c : Char) : ℕ :=
  match ndRangeStarts.find? (fun s => s ≤ c.toNat && c.toNat ≤ s + 9) with
  | some s => c.toNat - s
  | none => 0

/-- Characters stripped by Python's `str.strip()` (Unicode whitespace). -/
def pyIsSpace (c : Char) : Bool :=
  let n := c.toNat
  (9 ≤ n && n ≤ 13) || n = 28 || n = 29 || n = 30 || n = 31 || n = 32 ||
    n = 133 || n = 160 || n = 5760 || (8192 ≤ n && n ≤ 8202) ||
    n = 8232 || n = 8233 || n = 8239 || n = 8287 || n = 12288

/-- Line boundaries recognised by Python's `str.splitlines()`. -/
def isLineBreak (c : Char) : Bool :=
  let n := c.toNat
  (10 ≤ n && n ≤ 13) || n = 28 || n = 29 || n = 30 || n = 133 ||
    n = 8232 || n = 8233

/-- `str.strip()` on a character list. -/
def pyStripList (l : List Char) : List Char :=
  ((l.dropWhile pyIsSpace).reverse.dropWhile pyIsSpace).reverse

/-- Worker for `str.splitlines()`: `cur` is the current line, reversed. -/
def splitlinesList : List Char → List Char → List (List Char)
  | [], cur => if cur.isEmpty then [] else [cur.reverse]
  | '\r' :: '\n' :: rest, cur => cur.reverse :: splitlinesList rest []
  | c :: rest, cur =>
    if isLineBreak c then cur.reverse :: splitlinesList rest []
    else splitlinesList rest (c :: cur)

/-- Python's `str.splitlines()`. -/
def pySplitlines (s : String) : List (List Char) := splitlinesList s.data []

/-- Line 43 of the source: `[line.strip() for line in combined.splitlines() if line.strip()]`. -/
def nonEmptyLines (s : String) : List (List Char) :=
  ((pySplitlines s).map pyStripList).filter (fun l => !l.isEmpty)

/-- Split a maximal run of decimal digits off the front (a greedy `\d*`). -/
def takeDigits (cs : List Char) : List Char × List Char :=
  (cs.takeWhile pyIsDigit, cs.dropWhile pyIsDigit)

/--
Match `\d*\.?\d+` at the head of `cs` under Python's leftmost
backtracking semantics, returning the matched characters and the rest.
With greedy quantifiers this resolves deterministically to: a nonempty
digit run, optionally extended by a dot and a nonempty digit run; or a
dot followed by a nonempty digit run when no leading digits exist.
-/
def matchMantissa (cs : List Char) : Option (List Char × List Char) :=
  let (ds, r) := takeDigits cs
  match r with
  | c :: r2 =>
    if c = '.' then
      let (fs, r3) := takeDigits r2
      if ds.isEmpty then
        if fs.isEmpty then none else some ('.' :: fs, r3)
      else
        if fs.isEmpty then some (ds, r) else some (ds ++ '.' :: fs, r3)
    else if ds.isEmpty then none else some (ds, r)
  | [] => if ds.isEmpty then none else some (ds, r)

/--
Match the optional exponent group `(?:[eE][-+]?\d+)?` at the head of
`cs`; the group matches greedily or, failing that, matches empty.
-/
def matchExpPart (cs : List Char) : List Char × List Char :=
  match cs with
  | c :: r =>
    if c = 'e' ∨ c = 'E' then
      match r with
      | s :: r2 =>
        if s = '+' ∨ s = '-' then
          let (ds, r3) := takeDigits r2
          if ds.isEmpty then ([], cs) else (c :: s :: ds, r3)
        else
          let (ds, r2d) := takeDigits r
          if ds.isEmpty then ([], cs) else (c :: ds, r2d)
      | [] => ([], cs)
    else ([], cs)
  | [] => ([], cs)

/-- Match the full pattern `[-+]?\d*\.?\d+(?:[eE][-+]?\d+)?` at the head of `cs`. -/
def matchNumAt (cs : List Char) : Option (List Char) :=
  match cs with
  | [] => none
  | c :: t =>
    if c = '+' ∨ c = '-' then
      match matchMantissa t with
      | none => none
      | some (m, r1) => some (c :: (m ++ (matchExpPart r1).1))
    else
      match matchMantissa (c :: t) with
      | none => none
      | some (m, r1) => some (m ++ (matchExpPart r1).1)

/-- Line 49 of the source: `re.search` scans start positions left to right. -/
def reSearchList : List Char → Option (List Char)
  | [] => none
  | c :: t =>
    match matchNumAt (c :: t) with
    | some m => some m
    | none => reSearchList t

/--
An exact decimal value `m * 10 ^ e`.  Finite parsed floats are kept in
this form (rather than as `ℚ`) so that every comparison below is plain
integer arithmetic and closed instances evaluate by `decide`.
-/
structure Dec where
  m : ℤ
  e : ℤ
deriving DecidableEq, Repr

/-- The rational value of a decimal pair (for specification statements). -/
def Dec.toRat (d : Dec) : ℚ := (d.m : ℚ) * (10 : ℚ) ^ d.e

/-- Exact comparison `toRat a ≤ toRat b`, by cross-multiplying powers of ten. -/
def Dec.ble (a b : Dec) : Bool :=
  if a.e ≤ b.e then a.m ≤ b.m * 10 ^ (b.e - a.e).toNat
  else a.m * 10 ^ (a.e - b.e).toNat ≤ b.m

/-- Exact comparison `toRat a < toRat b`. -/
def Dec.blt (a b : Dec) : Bool :=
  if a.e ≤ b.e then a.m < b.m * 10 ^ (b.e - a.e).toNat
  else a.m * 10 ^ (a.e - b.e).toNat < b.m

/-- A Python float value as this program can observe it. -/
inductive PyFloat where
  | finite (d : Dec)
  | inf
  | neginf
  | nan
deriving DecidableEq, Repr

/-- True exactly on the `finite` constructor. -/
def PyFloat.isFinite : PyFloat → Bool
  | .finite _ => true
  | _ => false

/-- Digit run to a natural number, most significant first. -/
def digitsToNat (l : List Char) : ℕ :=
  l.foldl (fun n c => 10 * n + pyDigitVal c) 0

/--
Round-to-nearest-even overflow threshold of binary64: a correctly
rounded conversion yields ±infinity exactly when the magnitude is at
least `2^1024 - 2^970`.
-/
def ovfNat : ℕ := 2 ^ 1024 - 2 ^ 970

/-- Whether `|m * 10 ^ e|` reaches the binary64 overflow threshold. -/
def Dec.absGeOvf (d : Dec) : Bool :=
  if 0 ≤ d.e then ovfNat ≤ d.m.natAbs * 10 ^ d.e.toNat
  else ovfNat * 10 ^ (-d.e).toNat ≤ d.m.natAbs

/-- Classify an exact value as CPython's float-from-string conversion does. -/
def mkPyFloat (d : Dec) : PyFloat :=
  if d.absGeOvf then (if d.m < 0 then .neginf else .inf) else .finite d

/-- ASCII lower-casing as used for float-literal keywords. -/
def pyToLower (c : Char) : Char :=
  if 65 ≤ c.toNat ∧ c.toNat ≤ 90 then Char.ofNat (c.toNat + 32) else c

/-- Finish a decimal literal: an optional exponent `e|E [sign] digits`, which
must consume all of `r2`; `mant` is the mantissa read so far and `fracLen` its
number of fraction digits. -/
def parseExpTail (mant : ℕ) (fracLen : ℕ) (r2 : List Char) : Option (ℕ × ℤ) :=
  match r2 with
  | [] => some (mant, -(fracLen : ℤ))
  | c :: t =>
    if c = 'e' ∨ c = 'E' then
      let (eneg, t2) :=
        match t with
        | s :: t3 => if s = '-' then (true, t3) else if s = '+' then (false, t3) else (false, t)
        | [] => (false, ([] : List Char))
      let (eds, t4) := takeDigits t2
      if eds.isEmpty || !t4.isEmpty then none
      else
        let ex : ℤ := if eneg then -(digitsToNat eds : ℤ) else (digitsToNat eds : ℤ)
        some (mant, ex - (fracLen : ℤ))
    else none

/--
Parse `digits [. digits] [e|E [sign] digits]`, consuming all of `r`; the
result is the unsigned mantissa (all digits) and the effective decimal
exponent (the written exponent minus the number of fraction digits).
-/
def parseDecimal (r : List Char) : Option (ℕ × ℤ) :=
  let (ip, r1) := takeDigits r
  let (fp, r2) :=
    match r1 with
    | c :: t =>
      if c = '.' then (t.takeWhile pyIsDigit, t.dropWhile pyIsDigit)
      else (([] : List Char), r1)
    | [] => (([] : List Char), r1)
  if ip.isEmpty && fp.isEmpty then none
  else parseExpTail (digitsToNat (ip ++ fp)) fp.length r2

/--
Python's `float(string)`: strip whitespace, optional sign, then either
an `inf`/`infinity`/`nan` keyword (case-insensitive) or a decimal
literal; `none` models the ValueError branch.  (Underscored literals,
accepted by CPython, are not modelled; no input here contains them.)
-/
def pyFloatOfString (s : String) : Option PyFloat :=
  let cs := pyStripList s.data
  let (neg, r) :=
    match cs with
    | c :: t =>
      if c = '-' then (true, t) else if c = '+' then (false, t) else (false, cs)
    | [] => (false, ([] : List Char))
  let low := r.map pyToLower
  if low = "inf".data ∨ low = "infinity".data then
    some (if neg then .neginf else .inf)
  else if low = "nan".data then some .nan
  else
    match parseDecimal r with
    | some (m, ex) => some (mkPyFloat ⟨if neg then -(m : ℤ) else (m : ℤ), ex⟩)
    | none => none

/--
FitnessExtractor, lines 42 to 59 of the source: split the raw text into
stripped non-empty lines, search the last one with the numeric pattern,
convert the first match with `float`; every failure yields the sentinel
`float(inf)`.
-/
def extractFitness (s : String) : PyFloat :=
  match (nonEmptyLines s).getLast? with
  | none => .inf
  | some last =>
    match reSearchList last with
    | none => .inf
    | some tok =>
      match pyFloatOfString (String.mk tok) with
      | some f => f
      | none => .inf

/-- The five hyperparameters one trial draws, lines 18 to 22 of the source. -/
structure Params where
  swarmSize : ℕ
  maxIters : ℕ
  inertias : ℚ
  c1s : ℚ
  c2s : ℚ
deriving DecidableEq, Repr

/-- One `trial.suggest_int` or `trial.suggest_float` request: name, integer flag, bounds. -/
structure SuggestSpec where
  name : String
  isInt : Bool
  lo : ℚ
  hi : ℚ
deriving DecidableEq, Repr

/-- The suggest calls issued at the top of `objective`, lines 18 to 22 of the source. -/
def suggestCalls : List SuggestSpec :=
  [⟨"swarmSize", true, 10, 100⟩,
   ⟨"maxIters", true, 50, 1000⟩,
   ⟨"inertias", false, 1/10, 1⟩,
   ⟨"c1s", false, 1/10, 3⟩,
   ⟨"c2s", false, 1/10, 3⟩]

/--
The invocation command of lines 24 to 27 of the source, as the list of
argument strings.  `jar` stands for `str(JAR_PATH)` (an absolute path
fixed at startup) and `fstr` for Python's `str` on a float (its
shortest-round-trip decimal text; its exact digits are irrelevant to
every property below, so the command is parameterized over it).
Integers are rendered in decimal by `Nat.repr`, as Python's `str` does.
-/
def buildCmd (jar : String) (fstr : ℚ → String) (p : Params) : List String :=
  ["java", "-jar", jar,
   Nat.repr p.swarmSize, Nat.repr p.maxIters,
   fstr p.inertias, fstr p.c1s, fstr p.c2s]

/-- What `subprocess.run` did: completed (with captured streams and exit code), or raised. -/
inductive Outcome where
  | success (stdout stderr : String) (returncode : ℤ)
  | timedOut
  | fileNotFound (msg : String)
deriving DecidableEq, Repr

/-- The Python exceptions this code can see. -/
inductive PyExc where
  | timeoutExpired
  | fileNotFoundError (msg : String)
  | valueError
deriving DecidableEq, Repr

/-- Severity of a log record. -/
inductive LogLevel where
  | warning
  | error
deriving DecidableEq, Repr

/-- The structured content of each log call in `objective`. -/
inductive LogMsg where
  | timedOut (params : Params)
  | launchFailed (reason : String)
  | nonZeroExit (code : ℤ) (stderr : String)
  | noOutput (params : Params)
  | noNumeric (lastLine : String)
  | floatConvFailed (tok : String)
deriving DecidableEq, Repr

/-- A log record: level and message. -/
abbrev LogEntry := LogLevel × LogMsg

/-- `subprocess.run(cmd, ...)` as the code observes it: a result or a raised exception. -/
def runSubprocess (o : Outcome) : Except PyExc (String × String × ℤ) :=
  match o with
  | .success out err rc => .ok (out, err, rc)
  | .timedOut => .error .timeoutExpired
  | .fileNotFound m => .error (.fileNotFoundError m)

/-- `float(s)` as an exception-throwing operation; `ValueError` on failure. -/
def floatPy (s : String) : Except PyExc PyFloat :=
  match pyFloatOfString s with
  | some f => .ok f
  | none => .error .valueError

/-- Line 42 of the source: `"\n".join` of the captured stdout and stderr. -/
def combinedText (out err : String) : String := out ++ "\n" ++ err

/--
The body of `objective` (lines 17 to 59 of the source) given the
subprocess outcome: the returned fitness together with the log records
emitted, or an uncaught exception.  The two `except` clauses around
`subprocess.run` and the one around `float` appear as the handled
`.error` branches; an exception they do not name would propagate.
-/
def objectiveRun (p : Params) (o : Outcome) : Except PyExc (PyFloat × List LogEntry) :=
  match runSubprocess o with
  | .error .timeoutExpired => .ok (.inf, [(.warning, .timedOut p)])
  | .error (.fileNotFoundError m) => .ok (.inf, [(.error, .launchFailed m)])
  | .error e => .error e
  | .ok (out, err, rc) =>
    let warns : List LogEntry :=
      if rc ≠ 0 then [(.warning, .nonZeroExit rc (String.mk (pyStripList err.data)))] else []
    let lines := nonEmptyLines (combinedText out err)
    match lines.getLast? with
    | none => .ok (.inf, warns ++ [(.warning, .noOutput p)])
    | some last =>
      match reSearchList last with
      | none => .ok (.inf, warns ++ [(.warning, .noNumeric (String.mk last))])
      | some tok =>
        match floatPy (String.mk tok) with
        | .ok f => .ok (f, warns)
        | .error .valueError => .ok (.inf, warns ++ [(.warning, .floatConvFailed (String.mk tok))])
        | .error e => .error e

/-- The fitness `objective` returns (the unreachable uncaught-exception case is tagged NaN). -/
def scoreValue (p : Params) (o : Outcome) : PyFloat :=
  match objectiveRun p o with
  | .ok (v, _) => v
  | .error _ => .nan

/-- The log records `objective` emits. -/
def scoreLogs (p : Params) (o : Outcome) : List LogEntry :=
  match objectiveRun p o with
  | .ok (_, logs) => logs
  | .error _ => []

/-- Strict comparison on observed float values (NaN compares false on the left). -/
def PyFloat.flt : PyFloat → PyFloat → Bool
  | _, .neginf => false
  | .neginf, _ => true
  | .nan, _ => false
  | _, .nan => true
  | .finite a, .finite b => a.blt b
  | .finite _, .inf => true
  | .inf, _ => false

/-- Non-strict comparison on observed float values. -/
def PyFloat.fle : PyFloat → PyFloat → Bool
  | .neginf, _ => true
  | _, .inf => true
  | .finite a, .finite b => a.ble b
  | _, _ => false

/-- One completed trial: index, parameters, resulting fitness. -/
structure TrialRecord where
  idx : ℕ
  params : Params
  fitness : PyFloat
deriving DecidableEq, Repr

/--
Modelled from the spec: the SearchLoop (§4.4) driven by
`optuna.create_study(direction=minimize)` / `study.optimize(objective,
n_trials)` at lines 72 to 73 of the source — the optuna library itself
is not part of this repository.  `propose` is the external strategy
(`propose() -> ParameterVector`, here given the trial index and the
history for generality) and `score` is the trial objective; each trial
appends one record, in order of increasing index.
-/
def runStudy (propose : ℕ → List TrialRecord → Params) (score : Params → PyFloat) :
    ℕ → List TrialRecord
  | 0 => []
  | n + 1 =>
    let prev := runStudy propose score n
    let p := propose n prev
    prev ++ [⟨n, p, score p⟩]

/--
Modelled from the spec: the StudyResult selection (`study.best_trial`,
minimization, ties broken by the earliest trial index).
-/
def bestRecord : List TrialRecord → Option TrialRecord
  | [] => none
  | r :: rs => some (rs.foldl (fun b t => if PyFloat.flt t.fitness b.fitness then t else b) r)

/-- Shape of a mantissa matched by `\d*\.?\d+`: digits, digits-dot-digits, or
dot-digits, with every digit run non-empty. -/
def MantShape (m : List Char) : Prop :=
  (m ≠ [] ∧ ∀ c ∈ m, pyIsDigit c = true) ∨
    (∃ ds fs, m = ds ++ '.' :: fs ∧ ds ≠ [] ∧ fs ≠ [] ∧
      (∀ c ∈ ds, pyIsDigit c = true) ∧ ∀ c ∈ fs, pyIsDigit c = true) ∨
    (∃ fs, m = '.' :: fs ∧ fs ≠ [] ∧ ∀ c ∈ fs, pyIsDigit c = true)

/-- Shape of a matched exponent group `(?:[eE][-+]?\d+)?`: empty, or an
e-marker, an optional sign, and a non-empty digit run. -/
def ExpShape (ex : List Char) : Prop :=
  ex = [] ∨
    ∃ e sg ds, ex = e :: (sg ++ ds) ∧ (e = 'e' ∨ e = 'E') ∧
      (sg = [] ∨ sg = ['+'] ∨ sg = ['-']) ∧ ds ≠ [] ∧ ∀ c ∈ ds, pyIsDigit c = true

/-- Shape of a matched optional sign `[-+]?`. -/
def SignShape (sgn : List Char) : Prop := sgn = [] ∨ sgn = ['+'] ∨ sgn = ['-']

/-- Shape of a full match of the numeric pattern. -/
def TokenShape (tok : List Char) : Prop :=
  ∃ sgn m ex, tok = sgn ++ m ++ ex ∧ SignShape sgn ∧ MantShape m ∧ ExpShape ex

/-- Order embedding of observed float values into extended rationals
(NaN, excluded everywhere it matters, is sent to the top). -/
def PyFloat.toERat : PyFloat → WithBot (WithTop ℚ)
  | .neginf => ⊥
  | .finite d => ((d.toRat : WithTop ℚ) : WithBot (WithTop ℚ))
  | .inf => ((⊤ : WithTop ℚ) : WithBot (WithTop ℚ))
  | .nan => ((⊤ : WithTop ℚ) : WithBot (WithTop ℚ))

/-! ## Helper lemmas -/

theorem scoreValue_success (p : Params) (out err : String) (rc : ℤ) :
    scoreValue p (.success out err rc) = extractFitness (combinedText out err) := by
  unfold scoreValue objectiveRun runSubprocess extractFitness floatPy
  cases h1 : (nonEmptyLines (combinedText out err)).getLast? with
  | none => simp [h1]
  | some last =>
    cases h2 : reSearchList last with
    | none => simp [h1, h2]
    | some tok =>
      cases h3 : pyFloatOfString (String.mk tok) with
      | none => simp [h1, h2, h3]
      | some f => simp [h1, h2, h3]

theorem mkPyFloat_ne_nan (d : Dec) : mkPyFloat d ≠ .nan := by
  unfold mkPyFloat
  split
  · split <;> simp
  · simp

theorem pyIsDigit_expand {c : Char} (h : pyIsDigit c = true) :
    ∃ s ∈ ndRangeStarts, s ≤ c.toNat ∧ c.toNat ≤ s + 9 := by
  simpa [pyIsDigit, List.any_eq_true, Bool.and_eq_true, decide_eq_true_eq] using h

theorem pyIsDigit_bounds {c : Char} (h : pyIsDigit c = true) :
    (48 ≤ c.toNat ∧ c.toNat ≤ 57) ∨ 1632 ≤ c.toNat := by
  obtain ⟨s, hs, h1, h2⟩ := pyIsDigit_expand h
  simp only [ndRangeStarts, List.mem_cons, List.not_mem_nil, or_false] at hs
  omega

theorem pyIsDigit_not_space {c : Char} (h : pyIsDigit c = true) : pyIsSpace c = false := by
  obtain ⟨s, hs, h1, h2⟩ := pyIsDigit_expand h
  simp only [ndRangeStarts, List.mem_cons, List.not_mem_nil, or_false] at hs
  simp only [pyIsSpace, Bool.or_eq_false_iff, Bool.and_eq_false_iff,
    decide_eq_false_iff_not]
  omega

theorem pyToLower_of_digit {c : Char} (h : pyIsDigit c = true) : pyToLower c = c := by
  have hb := pyIsDigit_bounds h
  unfold pyToLower
  rw [if_neg (by omega)]

theorem dropWhile_eq_self_of_all {p : Char → Bool} {l : List Char}
    (h : ∀ c ∈ l, p c = false) : l.dropWhile p = l := by
  cases l with
  | nil => rfl
  | cons c t => exact List.dropWhile_cons_of_neg (by simp [h c (List.mem_cons_self c t)])

theorem pyStripList_eq_self {l : List Char} (h : ∀ c ∈ l, pyIsSpace c = false) :
    pyStripList l = l := by
  unfold pyStripList
  rw [dropWhile_eq_self_of_all h, dropWhile_eq_self_of_all (by simpa using h),
    List.reverse_reverse]

theorem takeDigits_append {ds rest : List Char} (h1 : ∀ c ∈ ds, pyIsDigit c = true)
    (h2 : rest = [] ∨ ∃ c t, rest = c :: t ∧ pyIsDigit c = false) :
    takeDigits (ds ++ rest) = (ds, rest) := by
  unfold takeDigits
  induction ds with
  | nil =>
    simp only [List.nil_append]
    rcases h2 with rfl | ⟨c, t, rfl, hc⟩
    · rfl
    · rw [List.takeWhile_cons_of_neg (by simp [hc]), List.dropWhile_cons_of_neg (by simp [hc])]
  | cons d ds ih =>
    have hd : pyIsDigit d = true := h1 d (List.mem_cons_self d ds)
    have := ih (fun c hc => h1 c (List.mem_cons_of_mem d hc))
    simp only [Prod.mk.injEq] at this
    simp only [List.cons_append, List.takeWhile_cons_of_pos hd,
      List.dropWhile_cons_of_pos hd, this.1, this.2, Prod.mk.injEq, and_self]

theorem matchMantissa_shape {cs : List Char} {m r : List Char}
    (h : matchMantissa cs = some (m, r)) : MantShape m := by
  have hds : ∀ c ∈ cs.takeWhile pyIsDigit, pyIsDigit c = true :=
    fun c hc => List.mem_takeWhile_imp hc
  have hne : ∀ (l : List Char), ¬ l.isEmpty = true → l ≠ [] :=
    fun l h1 h2 => h1 (by simp [h2])
  unfold matchMantissa takeDigits at h
  simp only at h
  cases hdw : cs.dropWhile pyIsDigit with
  | nil =>
    rw [hdw] at h
    simp only at h
    split at h
    case isTrue => exact absurd h (by simp)
    case isFalse h1 =>
      simp only [Option.some.injEq, Prod.mk.injEq] at h
      exact Or.inl ⟨h.1 ▸ hne _ h1, h.1 ▸ hds⟩
  | cons c t =>
    rw [hdw] at h
    simp only at h
    have hfs : ∀ x ∈ t.takeWhile pyIsDigit, pyIsDigit x = true :=
      fun x hx => List.mem_takeWhile_imp hx
    split at h
    case isTrue hdot =>
      split at h
      case isTrue =>
        split at h
        case isTrue => exact absurd h (by simp)
        case isFalse h2 =>
          simp only [Option.some.injEq, Prod.mk.injEq] at h
          exact Or.inr (Or.inr ⟨t.takeWhile pyIsDigit, h.1.symm, hne _ h2, hfs⟩)
      case isFalse h1 =>
        split at h
        case isTrue =>
          simp only [Option.some.injEq, Prod.mk.injEq] at h
          exact Or.inl ⟨h.1 ▸ hne _ h1, h.1 ▸ hds⟩
        case isFalse h2 =>
          simp only [Option.some.injEq, Prod.mk.injEq] at h
          exact Or.inr (Or.inl ⟨cs.takeWhile pyIsDigit, t.takeWhile pyIsDigit,
            h.1.symm, hne _ h1, hne _ h2, hds, hfs⟩)
    case isFalse =>
      split at h
      case isTrue => exact absurd h (by simp)
      case isFalse h1 =>
        simp only [Option.some.injEq, Prod.mk.injEq] at h
        exact Or.inl ⟨h.1 ▸ hne _ h1, h.1 ▸ hds⟩

theorem matchExpPart_shape (cs : List Char) : ExpShape (matchExpPart cs).1 := by
  have hne : ∀ (l : List Char), ¬ l.isEmpty = true → l ≠ [] :=
    fun l h1 h2 => h1 (by simp [h2])
  unfold matchExpPart takeDigits
  cases cs with
  | nil => exact Or.inl rfl
  | cons c r =>
    simp only []
    split
    case isFalse => exact Or.inl rfl
    case isTrue he =>
      cases r with
      | nil => exact Or.inl rfl
      | cons s r2 =>
        simp only []
        have hd2 : ∀ x ∈ r2.takeWhile pyIsDigit, pyIsDigit x = true :=
          fun x hx => List.mem_takeWhile_imp hx
        have hd1 : ∀ x ∈ (s :: r2).takeWhile pyIsDigit, pyIsDigit x = true :=
          fun x hx => List.mem_takeWhile_imp hx
        split
        case isTrue hs =>
          split
          case isTrue => exact Or.inl rfl
          case isFalse h2 =>
            refine Or.inr ⟨c, [s], r2.takeWhile pyIsDigit, by simp, he, ?_, hne _ h2, hd2⟩
            rcases hs with rfl | rfl
            · exact Or.inr (Or.inl rfl)
            · exact Or.inr (Or.inr rfl)
        case isFalse =>
          split
          case isTrue => exact Or.inl rfl
          case isFalse h2 =>
            exact Or.inr ⟨c, [], (s :: r2).takeWhile pyIsDigit, by simp, he, Or.inl rfl,
              hne _ h2, hd1⟩

theorem matchNumAt_shape {cs tok : List Char} (h : matchNumAt cs = some tok) :
    TokenShape tok := by
  unfold matchNumAt at h
  cases cs with
  | nil => exact absurd h (by simp)
  | cons c t =>
    simp only [] at h
    split at h
    case isTrue hc =>
      cases hm : matchMantissa t with
      | none => rw [hm] at h; exact absurd h (by simp)
      | some v =>
        obtain ⟨m, r1⟩ := v
        rw [hm] at h
        simp only [Option.some.injEq] at h
        refine ⟨[c], m, (matchExpPart r1).1, by simp [← h], ?_, matchMantissa_shape hm,
          matchExpPart_shape r1⟩
        rcases hc with rfl | rfl
        · exact Or.inr (Or.inl rfl)
        · exact Or.inr (Or.inr rfl)
    case isFalse =>
      cases hm : matchMantissa (c :: t) with
      | none => rw [hm] at h; exact absurd h (by simp)
      | some v =>
        obtain ⟨m, r1⟩ := v
        rw [hm] at h
        simp only [Option.some.injEq] at h
        exact ⟨[], m, (matchExpPart r1).1, by simp [← h], Or.inl rfl, matchMantissa_shape hm,
          matchExpPart_shape r1⟩

theorem reSearchList_shape {cs tok : List Char} (h : reSearchList cs = some tok) :
    TokenShape tok := by
  induction cs with
  | nil => exact absurd h (by simp [reSearchList])
  | cons c t ih =>
    unfold reSearchList at h
    cases hm : matchNumAt (c :: t) with
    | some v =>
      rw [hm] at h
      simp only [Option.some.injEq] at h
      exact h ▸ matchNumAt_shape hm
    | none =>
      rw [hm] at h
      exact ih h

theorem isEmpty_false_of_ne_nil {α : Type} {l : List α} (h : l ≠ []) : l.isEmpty = false := by
  cases l with
  | nil => exact absurd rfl h
  | cons a t => rfl

theorem pyIsDigit_ne_special {c : Char} (h : pyIsDigit c = true) :
    c ≠ '-' ∧ c ≠ '+' ∧ c ≠ '.' := by
  refine ⟨?_, ?_, ?_⟩ <;> rintro rfl <;> exact absurd h (by decide)

theorem takeWhile_digits_append {ds rest : List Char} (h1 : ∀ c ∈ ds, pyIsDigit c = true)
    (h2 : rest = [] ∨ ∃ c t, rest = c :: t ∧ pyIsDigit c = false) :
    (ds ++ rest).takeWhile pyIsDigit = ds := by
  have := takeDigits_append h1 h2
  unfold takeDigits at this
  exact congrArg Prod.fst this

theorem dropWhile_digits_append {ds rest : List Char} (h1 : ∀ c ∈ ds, pyIsDigit c = true)
    (h2 : rest = [] ∨ ∃ c t, rest = c :: t ∧ pyIsDigit c = false) :
    (ds ++ rest).dropWhile pyIsDigit = rest := by
  have := takeDigits_append h1 h2
  unfold takeDigits at this
  exact congrArg Prod.snd this

theorem takeDigits_of_all {l : List Char} (h : ∀ c ∈ l, pyIsDigit c = true) :
    takeDigits l = (l, []) := by
  have := takeDigits_append h (Or.inl rfl)
  simpa using this

theorem expShape_head {ex : List Char} (h : ExpShape ex) :
    ex = [] ∨ ∃ c t, ex = c :: t ∧ pyIsDigit c = false ∧ c ≠ '.' := by
  rcases h with rfl | ⟨e, sg, ds, rfl, he, hsg, hds, hdig⟩
  · exact Or.inl rfl
  · refine Or.inr ⟨e, sg ++ ds, rfl, ?_, ?_⟩ <;> rcases he with rfl | rfl <;> decide

theorem expShape_head_weak {ex : List Char} (h : ExpShape ex) :
    ex = [] ∨ ∃ c t, ex = c :: t ∧ pyIsDigit c = false := by
  rcases expShape_head h with h1 | ⟨c, t, h1, h2, h3⟩
  · exact Or.inl h1
  · exact Or.inr ⟨c, t, h1, h2⟩

theorem parseExpTail_some (mant fracLen : ℕ) {ex : List Char} (hex : ExpShape ex) :
    ∃ v, parseExpTail mant fracLen ex = some v := by
  rcases hex with rfl | ⟨e, sg, ds, rfl, he, hsg, hds, hdig⟩
  · exact ⟨_, rfl⟩
  · obtain ⟨d, ds2, rfl⟩ := List.exists_cons_of_ne_nil hds
    have hall : ∀ c ∈ d :: ds2, pyIsDigit c = true := hdig
    have hspec := pyIsDigit_ne_special (hall d (List.mem_cons_self _ _))
    unfold parseExpTail
    simp only []
    rw [if_pos he]
    rcases hsg with rfl | rfl | rfl
    · have h1 : (d = '-') = False := by simp [hspec.1]
      have h2 : (d = '+') = False := by simp [hspec.2.1]
      simp [h1, h2, takeDigits_of_all hall]
    · simp [takeDigits_of_all hall]
    · simp [takeDigits_of_all hall]

theorem parseDecimal_token {m ex : List Char} (hm : MantShape m) (hex : ExpShape ex) :
    ∃ v, parseDecimal (m ++ ex) = some v := by
  have hexh := expShape_head_weak hex
  rcases hm with ⟨hne, hdig⟩ | ⟨ds, fs, rfl, hds, hfs, hdd, hfd⟩ | ⟨fs, rfl, hfs, hfd⟩
  · unfold parseDecimal
    rw [takeDigits_append hdig hexh]
    simp only []
    rcases expShape_head hex with rfl | ⟨c, t, rfl, hcd, hcdot⟩
    · rw [if_neg (by simp [isEmpty_false_of_ne_nil hne])]
      exact ⟨_, rfl⟩
    · simp only []
      rw [if_neg hcdot, if_neg (by simp [isEmpty_false_of_ne_nil hne])]
      exact parseExpTail_some _ _ hex
  · unfold parseDecimal
    rw [List.append_assoc]
    have hrw : ('.' :: fs) ++ ex = '.' :: (fs ++ ex) := rfl
    rw [hrw, takeDigits_append hdd (Or.inr ⟨'.', fs ++ ex, rfl, by decide⟩)]
    simp only []
    rw [takeWhile_digits_append hfd hexh, dropWhile_digits_append hfd hexh]
    simp [isEmpty_false_of_ne_nil hds]
    obtain ⟨⟨a, b⟩, hv⟩ := parseExpTail_some (digitsToNat (ds ++ fs)) fs.length hex
    exact ⟨a, b, hv⟩
  · unfold parseDecimal takeDigits
    have hrw : ('.' :: fs) ++ ex = '.' :: (fs ++ ex) := rfl
    rw [hrw, List.takeWhile_cons_of_neg (by decide), List.dropWhile_cons_of_neg (by decide)]
    simp only []
    rw [takeWhile_digits_append hfd hexh, dropWhile_digits_append hfd hexh]
    simp [isEmpty_false_of_ne_nil hfs]
    obtain ⟨⟨a, b⟩, hv⟩ := parseExpTail_some (digitsToNat fs) fs.length hex
    exact ⟨a, b, hv⟩

theorem mantShape_head {m : List Char} (h : MantShape m) :
    ∃ c m2, m = c :: m2 ∧ (pyIsDigit c = true ∨ c = '.') := by
  rcases h with ⟨hne, hd⟩ | ⟨ds, fs, rfl, hds, hfs, hdd, hfd⟩ | ⟨fs, rfl, hfs, hfd⟩
  · obtain ⟨c, m2, rfl⟩ := List.exists_cons_of_ne_nil hne
    exact ⟨c, m2, rfl, Or.inl (hd c (List.mem_cons_self _ _))⟩
  · obtain ⟨c, ds2, rfl⟩ := List.exists_cons_of_ne_nil hds
    exact ⟨c, ds2 ++ '.' :: fs, rfl, Or.inl (hdd c (List.mem_cons_self _ _))⟩
  · exact ⟨'.', fs, rfl, Or.inr rfl⟩

theorem mantShape_chars {m : List Char} (h : MantShape m) :
    ∀ c ∈ m, pyIsDigit c = true ∨ c = '.' := by
  rcases h with ⟨hne, hd⟩ | ⟨ds, fs, rfl, hds, hfs, hdd, hfd⟩ | ⟨fs, rfl, hfs, hfd⟩
  · exact fun c hc => Or.inl (hd c hc)
  · intro c hc
    rcases List.mem_append.mp hc with h1 | h1
    · exact Or.inl (hdd c h1)
    · rcases List.mem_cons.mp h1 with rfl | h2
      · exact Or.inr rfl
      · exact Or.inl (hfd c h2)
  · intro c hc
    rcases List.mem_cons.mp hc with rfl | h2
    · exact Or.inr rfl
    · exact Or.inl (hfd c h2)

theorem expShape_chars {ex : List Char} (h : ExpShape ex) :
    ∀ c ∈ ex, pyIsDigit c = true ∨ c = 'e' ∨ c = 'E' ∨ c = '+' ∨ c = '-' := by
  rcases h with rfl | ⟨e, sg, ds, rfl, he, hsg, hds, hdig⟩
  · intro c hc; exact absurd hc (List.not_mem_nil c)
  · intro c hc
    rcases List.mem_cons.mp hc with rfl | h2
    · rcases he with rfl | rfl
      · exact Or.inr (Or.inl rfl)
      · exact Or.inr (Or.inr (Or.inl rfl))
    · rcases List.mem_append.mp h2 with h3 | h3
      · rcases hsg with rfl | rfl | rfl
        · exact absurd h3 (List.not_mem_nil c)
        · rcases List.mem_singleton.mp h3 with rfl
          exact Or.inr (Or.inr (Or.inr (Or.inl rfl)))
        · rcases List.mem_singleton.mp h3 with rfl
          exact Or.inr (Or.inr (Or.inr (Or.inr rfl)))
      · exact Or.inl (hdig c h3)

theorem tokenShape_nospace {tok : List Char} (h : TokenShape tok) :
    ∀ c ∈ tok, pyIsSpace c = false := by
  obtain ⟨sgn, m, ex, rfl, hsgn, hm, hex⟩ := h
  intro c hc
  rcases List.mem_append.mp hc with h1 | h1
  · rcases List.mem_append.mp h1 with h2 | h2
    · rcases hsgn with rfl | rfl | rfl
      · exact absurd h2 (List.not_mem_nil c)
      · rcases List.mem_singleton.mp h2 with rfl; decide
      · rcases List.mem_singleton.mp h2 with rfl; decide
    · rcases mantShape_chars hm c h2 with h3 | rfl
      · exact pyIsDigit_not_space h3
      · decide
  · rcases expShape_chars hex c h1 with h3 | rfl | rfl | rfl | rfl
    · exact pyIsDigit_not_space h3
    all_goals decide

theorem mantShape_any_digit {m : List Char} (h : MantShape m) :
    ∃ c ∈ m, pyIsDigit c = true := by
  rcases h with ⟨hne, hd⟩ | ⟨ds, fs, rfl, hds, hfs, hdd, hfd⟩ | ⟨fs, rfl, hfs, hfd⟩
  · obtain ⟨c, m2, rfl⟩ := List.exists_cons_of_ne_nil hne
    exact ⟨c, List.mem_cons_self _ _, hd c (List.mem_cons_self _ _)⟩
  · obtain ⟨c, ds2, rfl⟩ := List.exists_cons_of_ne_nil hds
    exact ⟨c, List.mem_cons_self _ _, hdd c (List.mem_cons_self _ _)⟩
  · obtain ⟨c, fs2, rfl⟩ := List.exists_cons_of_ne_nil hfs
    exact ⟨c, List.mem_cons_of_mem _ (List.mem_cons_self _ _),
      hfd c (List.mem_cons_self _ _)⟩

theorem tokenShape_any_digit {tok : List Char} (h : TokenShape tok) :
    tok.any pyIsDigit = true := by
  obtain ⟨sgn, m, ex, rfl, hsgn, hm, hex⟩ := h
  obtain ⟨c, hcm, hcd⟩ := mantShape_any_digit hm
  rw [List.any_eq_true]
  exact ⟨c, List.mem_append.mpr (Or.inl (List.mem_append.mpr (Or.inr hcm))), hcd⟩

theorem pyToLower_head_ne {c0 : Char} (hc0 : pyIsDigit c0 = true ∨ c0 = '.') :
    pyToLower c0 ≠ 'i' ∧ pyToLower c0 ≠ 'n' := by
  rcases hc0 with h | rfl
  · rw [pyToLower_of_digit h]
    constructor <;> rintro rfl <;> exact absurd h (by decide)
  · exact ⟨by decide, by decide⟩

theorem pyFloatOfString_token {tok : List Char} (h : TokenShape tok) :
    ∃ f, pyFloatOfString (String.mk tok) = some f ∧ f ≠ .nan := by
  obtain ⟨sgn, m, ex, rfl, hsgn, hm, hex⟩ := h
  have hns : ∀ c ∈ sgn ++ m ++ ex, pyIsSpace c = false :=
    tokenShape_nospace ⟨sgn, m, ex, rfl, hsgn, hm, hex⟩
  obtain ⟨v, hv⟩ := parseDecimal_token hm hex
  obtain ⟨c0, m2, hm0, hc0⟩ := mantShape_head hm
  subst hm0
  have hl := pyToLower_head_ne hc0
  rw [List.cons_append] at hv
  unfold pyFloatOfString
  rw [show (String.mk (sgn ++ (c0 :: m2) ++ ex)).data = sgn ++ (c0 :: m2) ++ ex from rfl,
    pyStripList_eq_self hns]
  have hne : c0 ≠ '-' ∧ c0 ≠ '+' := by
    rcases hc0 with hd | rfl
    · exact ⟨(pyIsDigit_ne_special hd).1, (pyIsDigit_ne_special hd).2.1⟩
    · exact ⟨by decide, by decide⟩
  obtain ⟨mv, ev⟩ := v
  rcases hsgn with rfl | rfl | rfl <;>
    simp only [List.cons_append, List.nil_append] <;>
    simp [hne.1, hne.2, hl.1, hl.2, hv] <;>
    exact mkPyFloat_ne_nan _

theorem extractFitness_parse {s : String} {last tok : List Char}
    (h1 : (nonEmptyLines s).getLast? = some last)
    (h2 : reSearchList last = some tok) :
    ∃ f, pyFloatOfString (String.mk tok) = some f ∧ extractFitness s = f ∧ f ≠ .nan := by
  obtain ⟨f, hf, hnan⟩ := pyFloatOfString_token (reSearchList_shape h2)
  refine ⟨f, hf, ?_, hnan⟩
  unfold extractFitness
  simp only [h1, h2, hf]

theorem extractFitness_ne_nan (s : String) : extractFitness s ≠ .nan := by
  cases h1 : (nonEmptyLines s).getLast? with
  | none => unfold extractFitness; simp [h1]
  | some last =>
    cases h2 : reSearchList last with
    | none => unfold extractFitness; simp [h1, h2]
    | some tok =>
      obtain ⟨f, hf, hext, hnan⟩ := extractFitness_parse h1 h2
      rw [hext]
      exact hnan

theorem scoreValue_ne_nan (p : Params) (o : Outcome) : scoreValue p o ≠ .nan := by
  cases o with
  | success out err rc => rw [scoreValue_success]; exact extractFitness_ne_nan _
  | timedOut => simp [scoreValue, objectiveRun, runSubprocess]
  | fileNotFound m => simp [scoreValue, objectiveRun, runSubprocess]

theorem toRat_shift (d : Dec) (c : ℤ) (h : c ≤ d.e) :
    d.toRat = ((d.m * 10 ^ (d.e - c).toNat : ℤ) : ℚ) * (10 : ℚ) ^ c := by
  unfold Dec.toRat
  push_cast
  rw [mul_assoc, ← zpow_natCast (10 : ℚ) (d.e - c).toNat, Int.toNat_of_nonneg (by omega),
    ← zpow_add₀ (by norm_num : (10 : ℚ) ≠ 0), Int.sub_add_cancel]

theorem Dec.ble_iff (a b : Dec) : a.ble b = true ↔ a.toRat ≤ b.toRat := by
  unfold Dec.ble
  split
  case isTrue h =>
    rw [toRat_shift a a.e le_rfl, toRat_shift b a.e h, decide_eq_true_eq,
      mul_le_mul_right (zpow_pos (by norm_num : (0:ℚ) < 10) a.e), Int.cast_le]
    simp
  case isFalse h =>
    have h2 : b.e ≤ a.e := le_of_not_le h
    rw [toRat_shift a b.e h2, toRat_shift b b.e le_rfl, decide_eq_true_eq,
      mul_le_mul_right (zpow_pos (by norm_num : (0:ℚ) < 10) b.e), Int.cast_le]
    simp

theorem Dec.blt_iff (a b : Dec) : a.blt b = true ↔ a.toRat < b.toRat := by
  unfold Dec.blt
  split
  case isTrue h =>
    rw [toRat_shift a a.e le_rfl, toRat_shift b a.e h, decide_eq_true_eq,
      mul_lt_mul_right (zpow_pos (by norm_num : (0:ℚ) < 10) a.e), Int.cast_lt]
    simp
  case isFalse h =>
    have h2 : b.e ≤ a.e := le_of_not_le h
    rw [toRat_shift a b.e h2, toRat_shift b b.e le_rfl, decide_eq_true_eq,
      mul_lt_mul_right (zpow_pos (by norm_num : (0:ℚ) < 10) b.e), Int.cast_lt]
    simp

theorem PyFloat.fle_iff {a b : PyFloat} (ha : a ≠ .nan) (hb : b ≠ .nan) :
    a.fle b = true ↔ a.toERat ≤ b.toERat := by
  cases a with
  | nan => exact absurd rfl ha
  | neginf =>
    cases b <;> simp [PyFloat.fle, PyFloat.toERat, bot_le]
  | finite d =>
    cases b with
    | nan => exact absurd rfl hb
    | neginf => simp [PyFloat.fle, PyFloat.toERat, WithBot.not_coe_le_bot]
    | inf =>
      simp only [PyFloat.fle, PyFloat.toERat, true_iff]
      exact WithBot.coe_le_coe.mpr le_top
    | finite d2 =>
      simp [PyFloat.fle, PyFloat.toERat, Dec.ble_iff, WithBot.coe_le_coe, WithTop.coe_le_coe]
  | inf =>
    cases b with
    | nan => exact absurd rfl hb
    | neginf => simp [PyFloat.fle, PyFloat.toERat, WithBot.not_coe_le_bot]
    | inf => simp [PyFloat.fle, PyFloat.toERat]
    | finite d2 =>
      simp [PyFloat.fle, PyFloat.toERat, WithBot.coe_le_coe, top_le_iff, WithTop.coe_ne_top]

theorem PyFloat.flt_iff {a b : PyFloat} (ha : a ≠ .nan) (hb : b ≠ .nan) :
    a.flt b = true ↔ a.toERat < b.toERat := by
  cases a with
  | nan => exact absurd rfl ha
  | neginf =>
    cases b with
    | nan => exact absurd rfl hb
    | neginf => simp [PyFloat.flt, PyFloat.toERat]
    | inf => simp [PyFloat.flt, PyFloat.toERat, WithBot.bot_lt_coe]
    | finite d2 => simp [PyFloat.flt, PyFloat.toERat, WithBot.bot_lt_coe]
  | finite d =>
    cases b with
    | nan => exact absurd rfl hb
    | neginf => simp [PyFloat.flt, PyFloat.toERat, not_lt_bot]
    | inf =>
      simp only [PyFloat.flt, PyFloat.toERat, true_iff]
      exact WithBot.coe_lt_coe.mpr (WithTop.coe_lt_top _)
    | finite d2 =>
      simp [PyFloat.flt, PyFloat.toERat, Dec.blt_iff, WithBot.coe_lt_coe, WithTop.coe_lt_coe]
  | inf =>
    cases b with
    | nan => exact absurd rfl hb
    | neginf => simp [PyFloat.flt, PyFloat.toERat, not_lt_bot]
    | inf => simp [PyFloat.flt, PyFloat.toERat]
    | finite d2 =>
      simp [PyFloat.flt, PyFloat.toERat, WithBot.coe_lt_coe, not_top_lt]

theorem foldl_best_mem (l : List TrialRecord) :
    ∀ r, l.foldl (fun b t => if PyFloat.flt t.fitness b.fitness then t else b) r ∈ r :: l := by
  induction l with
  | nil => intro r; simp
  | cons t l ih =>
    intro r
    simp only [List.foldl_cons]
    by_cases h : PyFloat.flt t.fitness r.fitness = true
    · rw [if_pos h]
      rcases List.mem_cons.mp (ih t) with h1 | h1
      · rw [h1]; exact List.mem_cons_of_mem _ (List.mem_cons_self _ _)
      · exact List.mem_cons_of_mem _ (List.mem_cons_of_mem _ h1)
    · rw [if_neg h]
      rcases List.mem_cons.mp (ih r) with h1 | h1
      · rw [h1]; exact List.mem_cons_self _ _
      · exact List.mem_cons_of_mem _ (List.mem_cons_of_mem _ h1)

theorem foldl_best_spec (l : List TrialRecord) :
    ∀ r : TrialRecord,
      (∀ x ∈ r :: l, x.fitness ≠ .nan) →
      (r :: l).Pairwise (fun u v => u.idx < v.idx) →
      ∀ x ∈ r :: l,
        (l.foldl (fun b t => if PyFloat.flt t.fitness b.fitness then t else b) r).fitness.toERat
            ≤ x.fitness.toERat ∧
          ((l.foldl (fun b t => if PyFloat.flt t.fitness b.fitness then t else b)
                r).fitness.toERat = x.fitness.toERat →
            (l.foldl (fun b t => if PyFloat.flt t.fitness b.fitness then t else b) r).idx
              ≤ x.idx) := by
  induction l with
  | nil =>
    intro r hnan hsort x hx
    rcases List.mem_cons.mp hx with rfl | h
    · exact ⟨le_rfl, fun _ => le_rfl⟩
    · exact absurd h (List.not_mem_nil x)
  | cons t l ih =>
    intro r hnan hsort x hx
    have hnr : r.fitness ≠ .nan := hnan r (List.mem_cons_self _ _)
    have hnt : t.fitness ≠ .nan := hnan t (List.mem_cons_of_mem _ (List.mem_cons_self _ _))
    have hps := List.pairwise_cons.mp hsort
    have hpt := List.pairwise_cons.mp hps.2
    simp only [List.foldl_cons]
    by_cases hc : PyFloat.flt t.fitness r.fitness = true
    · rw [if_pos hc]
      have hnan2 : ∀ y ∈ t :: l, y.fitness ≠ .nan :=
        fun y hy => hnan y (List.mem_cons_of_mem _ hy)
      have ih2 := ih t hnan2 hps.2
      have hlt : t.fitness.toERat < r.fitness.toERat := (PyFloat.flt_iff hnt hnr).mp hc
      rcases List.mem_cons.mp hx with rfl | hx2
      · have hbt := ih2 t (List.mem_cons_self _ _)
        exact ⟨le_trans hbt.1 (le_of_lt hlt),
          fun heq => absurd (heq ▸ lt_of_le_of_lt hbt.1 hlt) (lt_irrefl _)⟩
      · exact ih2 x hx2
    · rw [if_neg hc]
      have hnan2 : ∀ y ∈ r :: l, y.fitness ≠ .nan := by
        intro y hy
        rcases List.mem_cons.mp hy with rfl | hy2
        · exact hnr
        · exact hnan y (List.mem_cons_of_mem _ (List.mem_cons_of_mem _ hy2))
      have hsort2 : (r :: l).Pairwise (fun u v => u.idx < v.idx) :=
        List.pairwise_cons.mpr
          ⟨fun y hy => hps.1 y (List.mem_cons_of_mem _ hy), hpt.2⟩
      have ih2 := ih r hnan2 hsort2
      have hle : r.fitness.toERat ≤ t.fitness.toERat :=
        le_of_not_lt (fun hlt => hc ((PyFloat.flt_iff hnt hnr).mpr hlt))
      rcases List.mem_cons.mp hx with rfl | hx2
      · exact ih2 x (List.mem_cons_self _ _)
      · rcases List.mem_cons.mp hx2 with rfl | hx3
        · have hbr := ih2 r (List.mem_cons_self _ _)
          refine ⟨le_trans hbr.1 hle, fun heq => ?_⟩
          rw [← heq] at hle
          have hval := le_antisymm hbr.1 hle
          exact le_trans (hbr.2 hval) (le_of_lt (hps.1 x (List.mem_cons_self _ _)))
        · exact ih2 x (List.mem_cons_of_mem _ hx3)

theorem runStudy_length (propose : ℕ → List TrialRecord → Params) (score : Params → PyFloat)
    (n : ℕ) : (runStudy propose score n).length = n := by
  induction n with
  | zero => rfl
  | succ n ih => simp [runStudy, ih]

theorem runStudy_idx_lt (propose : ℕ → List TrialRecord → Params) (score : Params → PyFloat) :
    ∀ n, ∀ x ∈ runStudy propose score n, x.idx < n := by
  intro n
  induction n with
  | zero => intro x hx; simp [runStudy] at hx
  | succ n ih =>
    intro x hx
    simp only [runStudy] at hx
    rcases List.mem_append.mp hx with h | h
    · exact Nat.lt_succ_of_lt (ih x h)
    · rcases List.mem_singleton.mp h with rfl
      exact Nat.lt_succ_self n

theorem runStudy_pairwise (propose : ℕ → List TrialRecord → Params)
    (score : Params → PyFloat) (n : ℕ) :
    (runStudy propose score n).Pairwise (fun u v => u.idx < v.idx) := by
  induction n with
  | zero => exact List.Pairwise.nil
  | succ n ih =>
    simp only [runStudy]
    refine List.pairwise_append.mpr ⟨ih, List.pairwise_singleton _ _, ?_⟩
    intro a ha b hb
    rcases List.mem_singleton.mp hb with rfl
    exact runStudy_idx_lt propose score n a ha

theorem runStudy_fitness_ne_nan (propose : ℕ → List TrialRecord → Params)
    (score : Params → PyFloat) (hs : ∀ p, score p ≠ .nan) :
    ∀ n, ∀ x ∈ runStudy propose score n, x.fitness ≠ .nan := by
  intro n
  induction n with
  | zero => intro x hx; simp [runStudy] at hx
  | succ n ih =>
    intro x hx
    simp only [runStudy] at hx
    rcases List.mem_append.mp hx with h | h
    · exact ih x h
    · rcases List.mem_singleton.mp h with rfl
      exact hs _

/-! ## Claims -/

/-- C1: for every raw text whose last non-empty (whitespace-trimmed) line
contains a numeric token, FitnessExtractor returns the first such token of that
last non-empty line (the leftmost match of the numeric pattern), parsed as a
floating-point number. -/
theorem c1_extractor_first_token_of_last_line (s : String) (last tok : List Char)
    (h1 : (nonEmptyLines s).getLast? = some last)
    (h2 : reSearchList last = some tok) :
    ∃ f, pyFloatOfString (String.mk tok) = some f ∧ extractFitness s = f := by
  obtain ⟨f, hf, hx, _⟩ := extractFitness_parse h1 h2
  exact ⟨f, hf, hx⟩

set_option maxRecDepth 16000 in
/-- C1 witness: the spec's two examples; "noise\n3.14 extra text\n" parses to
3.14 (the decimal pair 314e-2, i.e. 157/50) and "line1\nline2\n-2.5e-3\n"
parses to -2.5e-3 (the decimal pair -25e-4, i.e. -1/400). -/
theorem c1_extractor_first_token_witness :
    (∃ f, pyFloatOfString (String.mk "3.14".data) = some f ∧
      extractFitness "noise\n3.14 extra text\n" = f) ∧
      extractFitness "noise\n3.14 extra text\n" = .finite ⟨314, -2⟩ ∧
      Dec.toRat ⟨314, -2⟩ = 157 / 50 ∧
      extractFitness "line1\nline2\n-2.5e-3\n" = .finite ⟨-25, -4⟩ ∧
      Dec.toRat ⟨-25, -4⟩ = -(1 / 400) :=
  ⟨c1_extractor_first_token_of_last_line "noise\n3.14 extra text\n"
      "3.14 extra text".data "3.14".data (by decide) (by decide),
    by decide, by norm_num [Dec.toRat], by decide, by norm_num [Dec.toRat]⟩

/-- C2: for every raw text with no non-empty (whitespace-trimmed) lines, or whose
last non-empty line contains no numeric token, FitnessExtractor returns the
sentinel value +infinity. -/
theorem c2_no_token_gives_sentinel (s : String)
    (h : nonEmptyLines s = [] ∨
      ∃ last, (nonEmptyLines s).getLast? = some last ∧ reSearchList last = none) :
    extractFitness s = .inf := by
  unfold extractFitness
  rcases h with h | ⟨last, h1, h2⟩
  · simp [h, List.getLast?]
  · simp [h1, h2]

/-- C2 witness: the whitespace-only text and a token-free text both yield the sentinel. -/
theorem c2_no_token_gives_sentinel_witness :
    extractFitness "  \n\n" = .inf ∧ extractFitness "no numbers here" = .inf :=
  ⟨c2_no_token_gives_sentinel _ (Or.inl rfl),
   c2_no_token_gives_sentinel _ (Or.inr ⟨"no numbers here".data, rfl, rfl⟩)⟩

set_option maxRecDepth 4000 in
/-- C3 counterexample: with the non-zero-exit failure mode arising (exit code 1) and
output whose last line is the token -1e309, the objective returns negative
infinity, which is neither a finite value nor the +infinity sentinel — the claim
as stated is false (though no exception propagates). -/
theorem c3_never_raises_counterexample :
    scoreValue ⟨10, 50, 1, 1, 1⟩ (.success "-1e309" "" 1) = .neginf ∧
      PyFloat.neginf ≠ .inf ∧ PyFloat.neginf.isFinite = false := by decide

set_option maxRecDepth 4000 in
/-- C4 counterexample: on output whose last line is the token -2e309 (which
CPython's float conversion overflows to -inf), the returned value is negative
infinity, contradicting "never negative infinity". -/
theorem c4_value_range_counterexample :
    scoreValue ⟨10, 50, 1, 1, 1⟩ (.success "-2e309" "" 0) = .neginf ∧
      PyFloat.neginf ≠ .inf ∧ PyFloat.neginf.isFinite = false := by decide

/-- C3 (amended): for every subprocess outcome — timeout, launch failure, any
exit code, any output text — the objective absorbs the fault and returns a
value rather than propagating an exception: the run is always Except.ok, and
the returned value is never NaN (it is the sentinel, a finite value or, for
overflowing tokens, ±infinity). -/
theorem c3_never_raises_amended (p : Params) (o : Outcome) :
    ∃ v logs, objectiveRun p o = .ok (v, logs) ∧ v ≠ .nan := by
  cases o with
  | timedOut => exact ⟨.inf, _, rfl, by simp⟩
  | fileNotFound m => exact ⟨.inf, _, rfl, by simp⟩
  | success out err rc =>
    unfold objectiveRun runSubprocess floatPy
    cases h1 : (nonEmptyLines (combinedText out err)).getLast? with
    | none =>
      by_cases hrc : rc = 0
      · exact ⟨.inf, [(.warning, .noOutput p)], by simp [h1, hrc], by simp⟩
      · exact ⟨.inf, [(.warning, .nonZeroExit rc (String.mk (pyStripList err.data))),
          (.warning, .noOutput p)], by simp [h1, hrc], by simp⟩
    | some last =>
      cases h2 : reSearchList last with
      | none =>
        by_cases hrc : rc = 0
        · exact ⟨.inf, [(.warning, .noNumeric (String.mk last))], by simp [h1, h2, hrc], by simp⟩
        · exact ⟨.inf, [(.warning, .nonZeroExit rc (String.mk (pyStripList err.data))),
            (.warning, .noNumeric (String.mk last))], by simp [h1, h2, hrc], by simp⟩
      | some tok =>
        obtain ⟨f, hf, hnan⟩ := pyFloatOfString_token (reSearchList_shape h2)
        by_cases hrc : rc = 0
        · exact ⟨f, [], by simp [h1, h2, hf, hrc], hnan⟩
        · exact ⟨f, [(.warning, .nonZeroExit rc (String.mk (pyStripList err.data)))],
            by simp [h1, h2, hf, hrc], hnan⟩

/-- C4 (amended): the value returned by the objective is always the sentinel
+infinity, negative infinity (reachable only when the extracted token
overflows the float range with a negative sign), or a finite value; it is
never NaN. -/
theorem c4_value_range_amended (p : Params) (o : Outcome) :
    (scoreValue p o = .inf ∨ scoreValue p o = .neginf ∨
      ∃ d, scoreValue p o = .finite d) ∧ scoreValue p o ≠ .nan := by
  have h := scoreValue_ne_nan p o
  refine ⟨?_, h⟩
  cases hv : scoreValue p o with
  | finite d => exact Or.inr (Or.inr ⟨d, rfl⟩)
  | inf => exact Or.inl rfl
  | neginf => exact Or.inr (Or.inl rfl)
  | nan => exact absurd hv h

/-- C5 (amended): on TimedOut the objective logs one warning containing the full
parameter vector and returns the sentinel immediately; on LaunchFailed it logs
one error-level record containing the failure reason (not the parameter vector)
and returns the sentinel immediately; in both cases there is no retry (the one
subprocess outcome is consumed exactly once). -/
theorem c5_timeout_launch_sentinel (p : Params) (o : Outcome) (reason : String)
    (h : o = .timedOut ∨ o = .fileNotFound reason) :
    scoreValue p o = .inf ∧
      (o = .timedOut → scoreLogs p o = [(.warning, .timedOut p)]) ∧
      (o = .fileNotFound reason → scoreLogs p o = [(.error, .launchFailed reason)]) := by
  rcases h with h | h <;> subst h <;>
    refine ⟨rfl, ?_, ?_⟩ <;> intro h2 <;> first | rfl | exact absurd h2 (by simp)

/-- C5 witness: the amended statement at the TimedOut outcome for a concrete
parameter vector. -/
theorem c5_timeout_launch_sentinel_witness :
    scoreValue ⟨10, 50, 1, 1, 1⟩ .timedOut = .inf ∧
      (Outcome.timedOut = .timedOut →
        scoreLogs ⟨10, 50, 1, 1, 1⟩ .timedOut = [(.warning, .timedOut ⟨10, 50, 1, 1, 1⟩)]) ∧
      (Outcome.timedOut = .fileNotFound "" →
        scoreLogs ⟨10, 50, 1, 1, 1⟩ .timedOut = [(.error, .launchFailed "")]) :=
  c5_timeout_launch_sentinel ⟨10, 50, 1, 1, 1⟩ .timedOut "" (Or.inl rfl)

/-- C5 counterexample: on a LaunchFailed outcome the single log record is at
error level and carries only the exception text, not a warning with the
parameter vector — the claim as stated is false for LaunchFailed. -/
theorem c5_timeout_launch_counterexample :
    scoreValue ⟨10, 50, 1, 1, 1⟩ (.fileNotFound "No such file or directory") = .inf ∧
      scoreLogs ⟨10, 50, 1, 1, 1⟩ (.fileNotFound "No such file or directory") =
        [(.error, .launchFailed "No such file or directory")] ∧
      LogLevel.error ≠ LogLevel.warning := by decide

/-- C10: the fitness fed back to the search strategy is never NaN: every token
the numeric pattern matches contains a decimal digit (so the pattern cannot
match the text nan), and the extracted fitness value is never NaN. -/
theorem c10_fitness_never_nan (s : String) :
    extractFitness s ≠ .nan ∧
      ∀ tok, reSearchList s.data = some tok →
        tok.any pyIsDigit = true ∧ tok ≠ "nan".data := by
  refine ⟨extractFitness_ne_nan s, fun tok h => ?_⟩
  have hd := tokenShape_any_digit (reSearchList_shape h)
  refine ⟨hd, fun heq => ?_⟩
  rw [heq] at hd
  exact absurd hd (by decide)

/-- C10 witness: the theorem applied to the one-line text 7. -/
theorem c10_fitness_never_nan_witness :
    extractFitness "7" ≠ .nan ∧ "7".data.any pyIsDigit = true ∧ "7".data ≠ "nan".data :=
  ⟨(c10_fitness_never_nan "7").1, ((c10_fitness_never_nan "7").2 "7".data rfl).1,
    ((c10_fitness_never_nan "7").2 "7".data rfl).2⟩

/-- C6: a search loop of N trials (spec-modelled: the loop itself is optuna's
study.optimize, external to this repository) produces exactly N trial records;
the best record exists, its fitness is less than or equal to the fitness of
every recorded trial, ties go to the earliest trial index, and if every trial
yields the sentinel the best value equals the sentinel. -/
theorem c6_search_loop_best (propose : ℕ → List TrialRecord → Params)
    (score : Params → PyFloat) (n : ℕ) (hn : 0 < n) (hnan : ∀ p, score p ≠ .nan) :
    (runStudy propose score n).length = n ∧
      ∃ b, bestRecord (runStudy propose score n) = some b ∧
        b ∈ runStudy propose score n ∧
        (∀ r ∈ runStudy propose score n, b.fitness.fle r.fitness = true) ∧
        (∀ r ∈ runStudy propose score n,
          r.fitness.fle b.fitness = true → b.idx ≤ r.idx) ∧
        ((∀ r ∈ runStudy propose score n, r.fitness = .inf) → b.fitness = .inf) := by
  refine ⟨runStudy_length propose score n, ?_⟩
  cases hrec : runStudy propose score n with
  | nil =>
    have hlen := runStudy_length propose score n
    rw [hrec] at hlen
    simp at hlen
    omega
  | cons r l =>
    have hnanL : ∀ x ∈ r :: l, x.fitness ≠ .nan := by
      rw [← hrec]
      exact fun x hx => runStudy_fitness_ne_nan propose score hnan n x hx
    have hsort : (r :: l).Pairwise (fun u v => u.idx < v.idx) := by
      rw [← hrec]
      exact runStudy_pairwise propose score n
    have hmem := foldl_best_mem l r
    have hspec := foldl_best_spec l r hnanL hsort
    have hnb := hnanL _ hmem
    refine ⟨_, rfl, hmem, ?_, ?_, ?_⟩
    · intro x hx
      exact (PyFloat.fle_iff hnb (hnanL x hx)).mpr (hspec x hx).1
    · intro x hx hxb
      exact (hspec x hx).2
        (le_antisymm (hspec x hx).1 ((PyFloat.fle_iff (hnanL x hx) hnb).mp hxb))
    · intro hall
      exact hall _ hmem

/-- C6 witness: the theorem applied to a two-trial study whose objective always
returns the sentinel; the degenerate all-sentinel best value is the sentinel. -/
theorem c6_search_loop_best_witness :
    (0 : ℕ) < 2 ∧
      ((runStudy (fun _ _ => (⟨10, 50, 1, 1, 1⟩ : Params)) (fun _ => PyFloat.inf) 2).length = 2 ∧
        ∃ b, bestRecord (runStudy (fun _ _ => (⟨10, 50, 1, 1, 1⟩ : Params))
            (fun _ => PyFloat.inf) 2) = some b ∧
          b ∈ runStudy (fun _ _ => (⟨10, 50, 1, 1, 1⟩ : Params)) (fun _ => PyFloat.inf) 2 ∧
          (∀ r ∈ runStudy (fun _ _ => (⟨10, 50, 1, 1, 1⟩ : Params)) (fun _ => PyFloat.inf) 2,
            b.fitness.fle r.fitness = true) ∧
          (∀ r ∈ runStudy (fun _ _ => (⟨10, 50, 1, 1, 1⟩ : Params)) (fun _ => PyFloat.inf) 2,
            r.fitness.fle b.fitness = true → b.idx ≤ r.idx) ∧
          ((∀ r ∈ runStudy (fun _ _ => (⟨10, 50, 1, 1, 1⟩ : Params)) (fun _ => PyFloat.inf) 2,
            r.fitness = .inf) → b.fitness = .inf)) :=
  ⟨by decide,
    c6_search_loop_best (fun _ _ => (⟨10, 50, 1, 1, 1⟩ : Params)) (fun _ => PyFloat.inf) 2
      (by decide) (fun p h => PyFloat.noConfusion h)⟩

/-- C7: the fitness returned for a completed subprocess is a pure function of the
combined stdout-newline-stderr text: it equals FitnessExtractor on that text,
and in particular does not depend on the exit code or on the parameter vector. -/
theorem c7_fitness_pure_in_text (p q : Params) (out err : String) (rc1 rc2 : ℤ) :
    scoreValue p (.success out err rc1) = extractFitness (combinedText out err) ∧
      scoreValue p (.success out err rc1) = scoreValue q (.success out err rc2) := by
  refine ⟨scoreValue_success p out err rc1, ?_⟩
  rw [scoreValue_success p out err rc1, scoreValue_success q out err rc2]

/-- C8 counterexample: the parameter names the trial requests are not
swarmSize, maxIters, inertia, c1, c2 — the last three are named inertias,
c1s, c2s in the code. -/
theorem c8_schema_counterexample :
    suggestCalls.map SuggestSpec.name ≠ ["swarmSize", "maxIters", "inertia", "c1", "c2"] := by
  decide

/-- C8 (amended): each trial requests exactly five parameters, in order named
swarmSize (integer in [10,100]), maxIters (integer in [50,1000]), inertias
(real in [0.1,1.0]), c1s (real in [0.1,3.0]) and c2s (real in [0.1,3.0]). -/
theorem c8_schema_amended :
    suggestCalls.map SuggestSpec.name = ["swarmSize", "maxIters", "inertias", "c1s", "c2s"] ∧
      suggestCalls.map SuggestSpec.isInt = [true, true, false, false, false] ∧
      suggestCalls.map (fun s => (s.lo, s.hi)) =
        [(10, 100), (50, 1000), (1/10, 1), (1/10, 3), (1/10, 3)] ∧
      suggestCalls.length = 5 :=
  ⟨by decide, by decide, rfl, rfl⟩

/-- C9: the invocation command is the program prefix (java, -jar, the jar path)
followed by exactly the five parameter values as positional text arguments in
the order swarmSize, maxIters, inertias, c1s, c2s. -/
theorem c9_cmd_positional_order (jar : String) (fstr : ℚ → String) (p : Params) :
    buildCmd jar fstr p =
      ["java", "-jar", jar] ++
        [Nat.repr p.swarmSize, Nat.repr p.maxIters, fstr p.inertias, fstr p.c1s, fstr p.c2s] ∧
      (buildCmd jar fstr p).take 3 = ["java", "-jar", jar] ∧
      (buildCmd jar fstr p).drop 3 =
        [Nat.repr p.swarmSize, Nat.repr p.maxIters, fstr p.inertias, fstr p.c1s, fstr p.c2s] ∧
      (buildCmd jar fstr p).length = 8 :=
  ⟨rfl, rfl, rfl, rfl⟩

end OptunaPso
